import Mathlib

/-!
# Verification of the NER → ontology-graph pipeline (`src/ner.py`)

Shallow embedding of the core pipeline of `ner.py`:

* the ontology namespace and vocabulary (`SHE`),
* the entity-label classifier `map_entity_label`,
* the base-ontology insertion `add_base_ontology`,
* the two RDF graph builders `build_graph_spacy` and `build_graph_hf`,
* the RDF → NetworkX projection `rdf_to_networkx`,
* the label/color computation of `show_graph`.

RDF terms are modelled by their string identity (a URI string or a literal's
lexical form), an rdflib `Graph` by a duplicate-free list of triples in
insertion order (`g.add` is a set-insert: a no-op when the triple is already
present), and a `networkx.DiGraph` by a node list (set semantics) together
with an edge list keyed by the (source, target) pair — `add_edge` on an
existing pair overwrites the edge attributes instead of adding a second edge.
-/

namespace Ner

/-- An RDF term as it occurs in object position: a URI reference or a
literal.  `ner.py` only ever puts URIs in subject and predicate position, so
those are plain strings.  For a literal we record its lexical form, which is
what `str(...)` returns on it in `rdf_to_networkx`. -/
inductive RDFTerm where
  | uri (s : String)
  | lit (s : String)
deriving DecidableEq, Repr

/-- `str(term)` in Python: a `URIRef` prints as its URI, a `Literal` as its
lexical form. -/
def RDFTerm.toStr : RDFTerm → String
  | .uri s => s
  | .lit s => s

/-- An RDF triple `(subject, predicate, object)`. -/
structure Triple where
  subj : String
  pred : String
  obj : RDFTerm
deriving DecidableEq, Repr

/-- An rdflib `Graph`: a set of triples, modelled as a duplicate-free list
in insertion order. -/
abbrev TripleSet := List Triple

/-- `g.add(t)` on an rdflib `Graph`: set semantics, inserting an already
present triple is a no-op. -/
def addTriple (g : TripleSet) (t : Triple) : TripleSet :=
  if t ∈ g then g else g ++ [t]

/-- The ontology namespace `SHE = Namespace("http://example.org/she#")`;
`SHE[x]` / `SHE.x` is the namespace string followed by the local name. -/
def sheNs (localName : String) : String :=
  "http://example.org/she#" ++ localName

def shePerson : String := sheNs "Person"
def sheOrganization : String := sheNs "Organization"
def sheLocation : String := sheNs "Location"
def sheDate : String := sheNs "Date"
def sheMiscEntity : String := sheNs "MiscEntity"
def sheEntity : String := sheNs "Entity"
def sheDocument : String := sheNs "Document"
def sheHasEntity : String := sheNs "hasEntity"
def sheHasText : String := sheNs "hasText"
def sheHasScore : String := sheNs "hasScore"

def rdfType : String := "http://www.w3.org/1999/02/22-rdf-syntax-ns#type"
def rdfsSubClassOf : String := "http://www.w3.org/2000/01/rdf-schema#subClassOf"
def owlClass : String := "http://www.w3.org/2002/07/owl#Class"
def owlObjectProperty : String := "http://www.w3.org/2002/07/owl#ObjectProperty"
def owlDatatypeProperty : String := "http://www.w3.org/2002/07/owl#DatatypeProperty"

/-- `map_entity_label` of `ner.py`: `mapping.get(label, SHE.Entity)` over the
seven-entry dictionary, i.e. a case-sensitive exact-match lookup with
`SHE.Entity` as the default. -/
def map_entity_label (label : String) : String :=
  if label = "PERSON" then shePerson
  else if label = "PER" then shePerson
  else if label = "ORG" then sheOrganization
  else if label = "GPE" then sheLocation
  else if label = "LOC" then sheLocation
  else if label = "DATE" then sheDate
  else if label = "MISC" then sheMiscEntity
  else sheEntity

/-- `add_base_ontology` of `ner.py`: the fifteen `g.add` calls in source
order (the `g.bind` call only registers a serialization prefix and adds no
triple). -/
def add_base_ontology (g : TripleSet) : TripleSet :=
  let g := addTriple g ⟨sheEntity, rdfType, .uri owlClass⟩
  let g := addTriple g ⟨shePerson, rdfType, .uri owlClass⟩
  let g := addTriple g ⟨shePerson, rdfsSubClassOf, .uri sheEntity⟩
  let g := addTriple g ⟨sheOrganization, rdfType, .uri owlClass⟩
  let g := addTriple g ⟨sheOrganization, rdfsSubClassOf, .uri sheEntity⟩
  let g := addTriple g ⟨sheLocation, rdfType, .uri owlClass⟩
  let g := addTriple g ⟨sheLocation, rdfsSubClassOf, .uri sheEntity⟩
  let g := addTriple g ⟨sheDate, rdfType, .uri owlClass⟩
  let g := addTriple g ⟨sheDate, rdfsSubClassOf, .uri sheEntity⟩
  let g := addTriple g ⟨sheMiscEntity, rdfType, .uri owlClass⟩
  let g := addTriple g ⟨sheMiscEntity, rdfsSubClassOf, .uri sheEntity⟩
  let g := addTriple g ⟨sheDocument, rdfType, .uri owlClass⟩
  let g := addTriple g ⟨sheHasEntity, rdfType, .uri owlObjectProperty⟩
  let g := addTriple g ⟨sheHasText, rdfType, .uri owlDatatypeProperty⟩
  addTriple g ⟨sheHasScore, rdfType, .uri owlDatatypeProperty⟩

/-- `ent.text.replace(" ", "_")`: every space character (exactly U+0020) is
replaced by an underscore; no other character, whitespace or not, is
touched. -/
def normSpace (s : String) : String :=
  ⟨s.data.map fun c => if c = ' ' then '_' else c⟩

/-- The entity-node URI derived from a mention's surface text:
`URIRef(SHE[text.replace(" ", "_")])`. -/
def entUriOf (text : String) : String :=
  sheNs (normSpace text)

/-- The fixed document node `URIRef(SHE["Document1"])`. -/
def docUri : String := sheNs "Document1"

/-- A spaCy entity span: attribute access on `ent.text` / `ent.label_`
always succeeds, so both fields are present.  spaCy spans expose no
confidence score. -/
structure SpacyEnt where
  text : String
  label_ : String
deriving DecidableEq, Repr

/-- The per-mention loop body of `build_graph_spacy` (lines 65–69). -/
def spacyStep (g : TripleSet) (ent : SpacyEnt) : TripleSet :=
  let entUri := entUriOf ent.text
  let entClass := map_entity_label ent.label_
  let g := addTriple g ⟨entUri, rdfType, .uri entClass⟩
  let g := addTriple g ⟨docUri, sheHasEntity, .uri entUri⟩
  addTriple g ⟨entUri, sheHasText, .lit ent.text⟩

/-- `build_graph_spacy` of `ner.py`: base ontology, the typed document node,
then the per-mention loop in input order. -/
def build_graph_spacy (ents : List SpacyEnt) : TripleSet :=
  let g := add_base_ontology []
  let g := addTriple g ⟨docUri, rdfType, .uri sheDocument⟩
  ents.foldl spacyStep g

/-- A Hugging Face pipeline entity: a Python dict.  Each field is `none`
when the corresponding key is absent, in which case subscripting raises
`KeyError`.  A score literal is modelled by its lexical form. -/
structure HFEnt where
  word : Option String
  entity_group : Option String
  score : Option String
deriving DecidableEq, Repr

/-- The per-mention loop body of `build_graph_hf` (lines 78–83), with the
graph state made explicit: the result is the graph after the iteration
together with the `KeyError` raised, if any.  `ent['word']` is read first
(line 78), then `ent['entity_group']` (line 79), both before any `g.add`;
`ent['score']` is only read at line 83, after the three `g.add` calls of
lines 80–82 have already mutated the graph. -/
def hfStep (g : TripleSet) (ent : HFEnt) : TripleSet × Option String :=
  match ent.word with
  | none => (g, some "KeyError: word")
  | some w =>
    match ent.entity_group with
    | none => (g, some "KeyError: entity_group")
    | some lab =>
      let entUri := entUriOf w
      let entClass := map_entity_label lab
      let g := addTriple g ⟨entUri, rdfType, .uri entClass⟩
      let g := addTriple g ⟨docUri, sheHasEntity, .uri entUri⟩
      let g := addTriple g ⟨entUri, sheHasText, .lit w⟩
      match ent.score with
      | none => (g, some "KeyError: score")
      | some sc => (addTriple g ⟨entUri, sheHasScore, .lit sc⟩, none)

/-- The loop of `build_graph_hf` over the remaining entities: a `KeyError`
aborts the loop, leaving the triples committed so far in the graph. -/
def hfLoop (g : TripleSet) : List HFEnt → TripleSet × Option String
  | [] => (g, none)
  | ent :: rest =>
    match hfStep g ent with
    | (g', none) => hfLoop g' rest
    | (g', some e) => (g', some e)

/-- `build_graph_hf` of `ner.py`, with the graph state at the moment of an
uncaught `KeyError` made explicit: the committed triple set together with
the error, if any. -/
def build_graph_hf (ents : List HFEnt) : TripleSet × Option String :=
  let g := add_base_ontology []
  let g := addTriple g ⟨docUri, rdfType, .uri sheDocument⟩
  hfLoop g ents

/-- A `networkx.DiGraph` as `rdf_to_networkx` and `show_graph` use it:
`nodes` is the node set in insertion order (`add_node` on a present node is a
no-op) and `edges` the edge list, one entry `(source, target, label)` per
distinct `(source, target)` key — `add_edge` on an existing key overwrites
its attributes instead of adding a parallel edge. -/
structure NXDiGraph where
  nodes : List String
  edges : List (String × String × String)
deriving DecidableEq, Repr

/-- The `(source, target)` key that identifies an edge in a `DiGraph`. -/
def edgeKey (e : String × String × String) : String × String :=
  (e.1, e.2.1)

/-- `G.add_node(n)`. -/
def addNode (G : NXDiGraph) (n : String) : NXDiGraph :=
  if n ∈ G.nodes then G else { G with nodes := G.nodes ++ [n] }

/-- `G.add_edge(s, t, label=lbl)`: endpoints are added as nodes when
missing; an existing `(s, t)` edge has its label overwritten, otherwise a
new edge is appended. -/
def addEdge (G : NXDiGraph) (s t lbl : String) : NXDiGraph :=
  let G := addNode (addNode G s) t
  if (s, t) ∈ G.edges.map edgeKey then
    { G with edges := G.edges.map fun e => if edgeKey e = (s, t) then (s, t, lbl) else e }
  else
    { G with edges := G.edges ++ [(s, t, lbl)] }

/-- `str(p).split("#")[-1]`: the part of the string after the last `'#'`
(the whole string when it has no `'#'`). -/
def afterLastHash (s : String) : String :=
  ⟨(s.data.reverse.takeWhile fun c => c ≠ '#').reverse⟩

/-- The loop body of `rdf_to_networkx` (lines 92–94): add the subject's and
the object's string form as nodes and a directed edge between them labelled
with the predicate's fragment after `'#'`. -/
def projStep (G : NXDiGraph) (t : Triple) : NXDiGraph :=
  let G := addNode G t.subj
  let G := addNode G t.obj.toStr
  addEdge G t.subj t.obj.toStr (afterLastHash t.pred)

/-- `rdf_to_networkx` of `ner.py`: the loop body applied to every triple of
the graph, starting from an empty `DiGraph`. -/
def rdf_to_networkx (g : TripleSet) : NXDiGraph :=
  g.foldl projStep ⟨[], []⟩

/-- `needle.isPrefixOf hay` on character lists, written out. -/
def leadsWith : List Char → List Char → Bool
  | [], _ => true
  | _ :: _, [] => false
  | a :: as, b :: bs => a = b && leadsWith as bs

/-- `needle in hay` on character lists: some suffix of `hay` starts with
`needle` (the empty needle always matches, as in Python). -/
def occursIn (needle : List Char) : List Char → Bool
  | [] => leadsWith needle []
  | c :: rest => leadsWith needle (c :: rest) || occursIn needle rest

/-- Python's substring test `needle in hay` on strings. -/
def pyIn (needle hay : String) : Bool :=
  occursIn needle.data hay.data

/-- The `color_map` dict of `show_graph`, in insertion order (Python dicts
iterate in insertion order). -/
def color_map : List (String × String) :=
  [("Person", "blue"), ("Organization", "orange"), ("Location", "green"),
   ("Date", "yellow"), ("MiscEntity", "gray"), ("Entity", "gray"),
   ("Document", "red")]

/-- The color loop of `show_graph` (lines 115–119): `color = "lightgray"`,
then the first `key in label` match breaks with its color. -/
def colorLoop (label : String) : List (String × String) → String
  | [] => "lightgray"
  | (key, val) :: rest => if pyIn key label then val else colorLoop label rest

/-- The color assigned to a node label by `show_graph`. -/
def colorOf (label : String) : String :=
  colorLoop label color_map

/-- The pyvis node record `show_graph` emits for a NetworkX node `n`
(line 113 and 120): identity `n`, display label `n.split("#")[-1]`, color
computed from that display label. -/
def showNode (n : String) : String × String × String :=
  let label := afterLastHash n
  (n, label, colorOf label)

/-- Modelled from the spec: "replacing whitespace with underscores" read
with "whitespace" as any whitespace character, the reading under which two
surface texts have the same whitespace-normalized form exactly when this
function agrees on them.  Used only to compare the spec's wording with the
source's `normSpace`. -/
def specNormalizeWs (s : String) : String :=
  ⟨s.data.map fun c => if c.isWhitespace then '_' else c⟩

/-- Modelled from the spec: the entity URI as the spec's wording describes
it, namespace prefix plus whitespace-normalized text. -/
def specEntUriOf (text : String) : String :=
  sheNs (specNormalizeWs text)

/-! ## Basic lemmas about the triple-set insert -/

theorem mem_addTriple {g : TripleSet} {t x : Triple} :
    x ∈ addTriple g t ↔ x ∈ g ∨ x = t := by
  unfold addTriple
  split
  · rename_i h
    exact ⟨Or.inl, fun hx => hx.elim id fun he => he ▸ h⟩
  · simp [List.mem_append]

theorem self_mem_addTriple {g : TripleSet} {t : Triple} : t ∈ addTriple g t :=
  mem_addTriple.mpr (Or.inr rfl)

theorem mem_addTriple_of_mem {g : TripleSet} {t x : Triple} (h : x ∈ g) :
    x ∈ addTriple g t :=
  mem_addTriple.mpr (Or.inl h)

theorem addTriple_eq_of_mem {g : TripleSet} {t : Triple} (h : t ∈ g) :
    addTriple g t = g := by
  unfold addTriple
  exact if_pos h

/-! ## Lemmas about the classifier and the spaCy builder -/

theorem map_entity_label_ne_sheDocument (l : String) :
    map_entity_label l ≠ sheDocument := by
  unfold map_entity_label
  repeat' split
  all_goals decide

theorem mem_spacyStep {g : TripleSet} {m : SpacyEnt} {t : Triple} :
    t ∈ spacyStep g m ↔
      t ∈ g ∨
      t = ⟨entUriOf m.text, rdfType, .uri (map_entity_label m.label_)⟩ ∨
      t = ⟨docUri, sheHasEntity, .uri (entUriOf m.text)⟩ ∨
      t = ⟨entUriOf m.text, sheHasText, .lit m.text⟩ := by
  simp [spacyStep, mem_addTriple, or_assoc]

theorem mem_spacyStep_of_mem {g : TripleSet} {m : SpacyEnt} {t : Triple}
    (h : t ∈ g) : t ∈ spacyStep g m :=
  mem_spacyStep.mpr (Or.inl h)

theorem type_triple_mem_spacyStep (g : TripleSet) (m : SpacyEnt) :
    (⟨entUriOf m.text, rdfType, .uri (map_entity_label m.label_)⟩ : Triple) ∈ spacyStep g m :=
  mem_spacyStep.mpr (Or.inr (Or.inl rfl))

theorem spacyStep_idem (g : TripleSet) (m : SpacyEnt) :
    spacyStep (spacyStep g m) m = spacyStep g m := by
  have h1 : (⟨entUriOf m.text, rdfType, .uri (map_entity_label m.label_)⟩ : Triple) ∈ spacyStep g m :=
    type_triple_mem_spacyStep g m
  have h2 : (⟨docUri, sheHasEntity, .uri (entUriOf m.text)⟩ : Triple) ∈ spacyStep g m :=
    mem_spacyStep.mpr (Or.inr (Or.inr (Or.inl rfl)))
  have h3 : (⟨entUriOf m.text, sheHasText, .lit m.text⟩ : Triple) ∈ spacyStep g m :=
    mem_spacyStep.mpr (Or.inr (Or.inr (Or.inr rfl)))
  show addTriple (addTriple (addTriple (spacyStep g m) _) _) _ = spacyStep g m
  rw [addTriple_eq_of_mem h1, addTriple_eq_of_mem h2, addTriple_eq_of_mem h3]

/-! ## Claim theorems -/

/-- C6: `map_entity_label` is a total pure function on strings mapping, by
case-sensitive exact match, PERSON and PER to Person, ORG to Organization,
GPE and LOC to Location, DATE to Date, MISC to MiscEntity, and every other
string (including the empty string) to the generic Entity class; being a
total Lean function it never fails. -/
theorem map_entity_label_spec :
    map_entity_label "PERSON" = shePerson ∧
    map_entity_label "PER" = shePerson ∧
    map_entity_label "ORG" = sheOrganization ∧
    map_entity_label "GPE" = sheLocation ∧
    map_entity_label "LOC" = sheLocation ∧
    map_entity_label "DATE" = sheDate ∧
    map_entity_label "MISC" = sheMiscEntity ∧
    ∀ label : String,
      label ∉ (["PERSON", "PER", "ORG", "GPE", "LOC", "DATE", "MISC"] : List String) →
      map_entity_label label = sheEntity := by
  refine ⟨by decide, by decide, by decide, by decide, by decide, by decide, by decide, ?_⟩
  intro label h
  simp only [List.mem_cons, List.not_mem_nil, or_false, not_or] at h
  obtain ⟨h1, h2, h3, h4, h5, h6, h7⟩ := h
  simp [map_entity_label, h1, h2, h3, h4, h5, h6, h7]

/-- Witness for C6: the unrecognized label "FOO" (and the empty string) map
to the generic Entity class. -/
theorem map_entity_label_spec_witness :
    map_entity_label "FOO" = sheEntity ∧ map_entity_label "" = sheEntity :=
  ⟨map_entity_label_spec.2.2.2.2.2.2.2 "FOO" (by decide),
   map_entity_label_spec.2.2.2.2.2.2.2 "" (by decide)⟩

/-- C8 counterexample: two mentions with the same label "PERSON" and the
same *normalized* text (`normSpace "a b" = normSpace "a_b" = "a_b"`) but
different raw texts: appending the second mention grows the triple set from
19 to 20 triples, because `build_graph_spacy` stores the raw surface text in
the `hasText` literal, so the claimed size equality fails. -/
theorem build_graph_spacy_normtext_cex :
    normSpace "a b" = normSpace "a_b" ∧
    (build_graph_spacy [⟨"a b", "PERSON"⟩]).length = 19 ∧
    (build_graph_spacy [⟨"a b", "PERSON"⟩, ⟨"a_b", "PERSON"⟩]).length = 20 := by
  decide

/-- C8 (amended): appending a second occurrence of the *identical* mention
(same raw text and same label) is a no-op: every triple the repeated mention
contributes is already present, and set-semantics insertion absorbs it, so
the built triple set is unchanged (in particular equal in size). -/
theorem build_graph_spacy_append_dup (ents : List SpacyEnt) (m : SpacyEnt) :
    build_graph_spacy (ents ++ [m, m]) = build_graph_spacy (ents ++ [m]) := by
  unfold build_graph_spacy
  rw [List.foldl_append, List.foldl_append]
  simp only [List.foldl_cons, List.foldl_nil]
  exact spacyStep_idem _ _

/-- C9 counterexample: the mentions ("X", "PERSON") and ("X", "PER") have
identical text and different labels, yet the built triple set carries a
single `rdf:type` triple on the shared node `she#X`, because both labels
classify to the same class `she:Person`. -/
theorem build_two_labels_cex :
    ("PERSON" : String) ≠ "PER" ∧
    ((build_graph_spacy [⟨"X", "PERSON"⟩, ⟨"X", "PER"⟩]).filter
        fun t => decide (t.subj = entUriOf "X" ∧ t.pred = rdfType)).length = 1 := by
  decide

/-- C9 (amended): two mentions with identical normalized text whose labels
*classify to different ontology classes* yield two distinct `rdf:type`
triples on the single shared entity node; labels that merely differ as
strings but classify alike (such as PERSON and PER) yield a single type
triple, as the counterexample shows. -/
theorem build_two_labels_two_types (t1 l1 t2 l2 : String)
    (hn : normSpace t1 = normSpace t2)
    (hl : map_entity_label l1 ≠ map_entity_label l2) :
    (⟨entUriOf t1, rdfType, .uri (map_entity_label l1)⟩ : Triple) ∈
        build_graph_spacy [⟨t1, l1⟩, ⟨t2, l2⟩] ∧
    (⟨entUriOf t1, rdfType, .uri (map_entity_label l2)⟩ : Triple) ∈
        build_graph_spacy [⟨t1, l1⟩, ⟨t2, l2⟩] ∧
    (⟨entUriOf t1, rdfType, .uri (map_entity_label l1)⟩ : Triple) ≠
        ⟨entUriOf t1, rdfType, .uri (map_entity_label l2)⟩ := by
  have huri : entUriOf t2 = entUriOf t1 := by
    unfold entUriOf
    rw [hn]
  unfold build_graph_spacy
  simp only [List.foldl_cons, List.foldl_nil]
  refine ⟨mem_spacyStep_of_mem (type_triple_mem_spacyStep _ _), ?_, ?_⟩
  · have h := type_triple_mem_spacyStep
      (spacyStep (addTriple (add_base_ontology []) ⟨docUri, rdfType, .uri sheDocument⟩) ⟨t1, l1⟩)
      ⟨t2, l2⟩
    simpa [huri] using h
  · simp only [ne_eq, Triple.mk.injEq, RDFTerm.uri.injEq, true_and]
    exact hl

/-- Witness for C9: "Barack Obama" mentioned once as PERSON and once as ORG
gives both a Person and an Organization type triple on the shared node. -/
theorem build_two_labels_two_types_witness :
    (⟨entUriOf "Barack Obama", rdfType, .uri (map_entity_label "PERSON")⟩ : Triple) ∈
        build_graph_spacy [⟨"Barack Obama", "PERSON"⟩, ⟨"Barack Obama", "ORG"⟩] ∧
    (⟨entUriOf "Barack Obama", rdfType, .uri (map_entity_label "ORG")⟩ : Triple) ∈
        build_graph_spacy [⟨"Barack Obama", "PERSON"⟩, ⟨"Barack Obama", "ORG"⟩] ∧
    (⟨entUriOf "Barack Obama", rdfType, .uri (map_entity_label "PERSON")⟩ : Triple) ≠
        ⟨entUriOf "Barack Obama", rdfType, .uri (map_entity_label "ORG")⟩ :=
  build_two_labels_two_types "Barack Obama" "PERSON" "Barack Obama" "ORG" rfl (by decide)

/-- The triples asserting that their subject is of type `she:Document`. -/
def isDocTypeTriple (t : Triple) : Bool :=
  decide (t.pred = rdfType ∧ t.obj = RDFTerm.uri sheDocument)

theorem filter_addTriple_of_neg {g : TripleSet} {t : Triple} {p : Triple → Bool}
    (h : p t = false) : (addTriple g t).filter p = g.filter p := by
  unfold addTriple
  split
  · rfl
  · simp [List.filter_append, List.filter, h]

theorem spacyStep_filter_docType (g : TripleSet) (m : SpacyEnt) :
    (spacyStep g m).filter isDocTypeTriple = g.filter isDocTypeTriple := by
  unfold spacyStep
  rw [filter_addTriple_of_neg, filter_addTriple_of_neg, filter_addTriple_of_neg]
  · exact decide_eq_false fun hc =>
      map_entity_label_ne_sheDocument m.label_ (RDFTerm.uri.inj hc.2)
  · exact decide_eq_false fun hc => absurd hc.1 (by decide : sheHasEntity ≠ rdfType)
  · exact decide_eq_false fun hc => absurd hc.1 (by decide : sheHasText ≠ rdfType)

/-- C7: for every mention sequence (including the empty one) the triple set
built by `build_graph_spacy` contains exactly one `rdf:type she:Document`
triple, and its subject is the fixed node `she#Document1`; moreover the
classifier can never type an entity node as Document, since
`map_entity_label` never returns the Document class. -/
theorem build_graph_spacy_unique_document (ents : List SpacyEnt) :
    ((build_graph_spacy ents).filter isDocTypeTriple).map Triple.subj = [docUri] ∧
    ∀ l : String, map_entity_label l ≠ sheDocument := by
  constructor
  · unfold build_graph_spacy
    have hfold : ∀ (es : List SpacyEnt) (g : TripleSet),
        (es.foldl spacyStep g).filter isDocTypeTriple = g.filter isDocTypeTriple := by
      intro es
      induction es with
      | nil => intro g; rfl
      | cons e es ih =>
        intro g
        rw [List.foldl_cons, ih, spacyStep_filter_docType]
    rw [hfold]
    decide
  · exact map_entity_label_ne_sheDocument

/-- Witness for C7: even a mention whose text is "Document1" (so that its
entity node collides with the document node) leaves exactly one
Document-typed triple, and the unrecognized label "QUX" does not classify
to Document. -/
theorem build_graph_spacy_unique_document_witness :
    ((build_graph_spacy [⟨"Document1", "FOO"⟩]).filter isDocTypeTriple).map Triple.subj
        = [docUri] ∧
    map_entity_label "QUX" ≠ sheDocument :=
  ⟨(build_graph_spacy_unique_document [⟨"Document1", "FOO"⟩]).1,
   (build_graph_spacy_unique_document []).2 "QUX"⟩

/-- C3 counterexample: a Hugging Face mention carrying `word` and
`entity_group` but no `score` does not make the build succeed without a
`hasScore` triple — `build_graph_hf` reads `ent['score']`
unconditionally, so the build aborts with a `KeyError`. -/
theorem build_graph_hf_missing_score_cex :
    (build_graph_hf [⟨some "X", some "PER", none⟩]).2 = some "KeyError: score" := by
  decide

/-- C3 (amended): `build_graph_spacy` never inserts a `hasScore` triple (its
mentions carry no score and the builder has no `hasScore` insertion), and in
`build_graph_hf` every mention is required to carry a score: one that does
gets its `(node, hasScore, score)` literal triple, while a mention without a
score aborts the build with `KeyError: score` instead of succeeding without
the triple. -/
theorem hasScore_policy :
    (∀ ents : List SpacyEnt, ∀ t ∈ build_graph_spacy ents, t.pred ≠ sheHasScore) ∧
    (∀ (g : TripleSet) (w lab : String),
      (hfStep g ⟨some w, some lab, none⟩).2 = some "KeyError: score") ∧
    (∀ (g : TripleSet) (w lab sc : String),
      (hfStep g ⟨some w, some lab, some sc⟩).2 = none ∧
      (⟨entUriOf w, sheHasScore, .lit sc⟩ : Triple) ∈ (hfStep g ⟨some w, some lab, some sc⟩).1) := by
  refine ⟨?_, fun g w lab => rfl, fun g w lab sc => ⟨rfl, self_mem_addTriple⟩⟩
  have hstep : ∀ (g : TripleSet) (m : SpacyEnt),
      (∀ t ∈ g, t.pred ≠ sheHasScore) → ∀ t ∈ spacyStep g m, t.pred ≠ sheHasScore := by
    intro g m hg t ht
    rcases mem_spacyStep.mp ht with h | rfl | rfl | rfl
    · exact hg t h
    · exact (by decide : rdfType ≠ sheHasScore)
    · exact (by decide : sheHasEntity ≠ sheHasScore)
    · exact (by decide : sheHasText ≠ sheHasScore)
  have hfold : ∀ (es : List SpacyEnt) (g : TripleSet),
      (∀ t ∈ g, t.pred ≠ sheHasScore) → ∀ t ∈ es.foldl spacyStep g, t.pred ≠ sheHasScore := by
    intro es
    induction es with
    | nil => intro g hg; exact hg
    | cons e es ih =>
      intro g hg
      rw [List.foldl_cons]
      exact ih _ (hstep g e hg)
  intro ents
  exact hfold ents _ (by decide)

/-- Witness for C3: the document type triple of the empty spaCy build is not
a `hasScore` triple; a scored HF mention contributes its `hasScore` triple;
an unscored HF mention aborts with `KeyError: score`. -/
theorem hasScore_policy_witness :
    (Triple.mk docUri rdfType (.uri sheDocument)).pred ≠ sheHasScore ∧
    (hfStep [] ⟨some "X", some "PER", none⟩).2 = some "KeyError: score" ∧
    (⟨entUriOf "X", sheHasScore, .lit "0.9"⟩ : Triple) ∈
        (hfStep [] ⟨some "X", some "PER", some "0.9"⟩).1 :=
  ⟨hasScore_policy.1 [] ⟨docUri, rdfType, .uri sheDocument⟩ (by decide),
   hasScore_policy.2.1 [] "X" "PER",
   (hasScore_policy.2.2 [] "X" "PER" "0.9").2⟩

/-- A Hugging Face dict that subscripting never fails on: all three keys
are present. -/
def goodHf (e : HFEnt) : Prop :=
  e.word.isSome ∧ e.entity_group.isSome ∧ e.score.isSome

instance : DecidablePred goodHf := fun e => by
  unfold goodHf
  infer_instance

theorem hfLoop_append {l : List HFEnt} :
    ∀ (pre : List HFEnt) (g : TripleSet), (∀ e ∈ pre, goodHf e) →
      (hfLoop g pre).2 = none ∧ hfLoop g (pre ++ l) = hfLoop (hfLoop g pre).1 l := by
  intro pre
  induction pre with
  | nil => intro g _; exact ⟨rfl, rfl⟩
  | cons e es ih =>
    intro g hpre
    obtain ⟨hw, hg, hs⟩ := hpre e (List.mem_cons_self e es)
    rcases e with ⟨ow, og, os⟩
    rcases ow with _ | w
    · simp [Option.isSome] at hw
    rcases og with _ | lab
    · simp [Option.isSome] at hg
    rcases os with _ | sc
    · simp [Option.isSome] at hs
    have hrest : ∀ e ∈ es, goodHf e := fun e he => hpre e (List.mem_cons_of_mem _ he)
    simpa [hfLoop, hfStep] using ih _ hrest

theorem hfLoop_cons_bad {g : TripleSet} {e : HFEnt} (rest : List HFEnt)
    (h : e.word = none ∨ e.entity_group = none) :
    (hfLoop g (e :: rest)).1 = g ∧ (hfLoop g (e :: rest)).2.isSome := by
  rcases e with ⟨ow, og, os⟩
  rcases ow with _ | w
  · exact ⟨rfl, rfl⟩
  rcases og with _ | lab
  · exact ⟨rfl, rfl⟩
  · rcases h with h | h <;> simp at h

/-- C4: when a Hugging Face mention lacks a required field (`word` or
`entity_group`), `build_graph_hf` fails with a `KeyError` instead of
skipping the mention or substituting defaults — both keys are read before
any `g.add` of that mention — so the committed triple set at the moment of
failure is exactly the one built from the earlier, well-formed mentions of
the batch: no triple derived from the failing mention is committed. -/
theorem build_graph_hf_invalid_mention (pre rest : List HFEnt) (e : HFEnt)
    (hpre : ∀ e' ∈ pre, goodHf e')
    (hbad : e.word = none ∨ e.entity_group = none) :
    (build_graph_hf (pre ++ e :: rest)).2.isSome ∧
    (build_graph_hf (pre ++ e :: rest)).1 = (build_graph_hf pre).1 := by
  unfold build_graph_hf
  obtain ⟨hnone, happ⟩ := hfLoop_append pre _ hpre
  rw [happ]
  exact ⟨(hfLoop_cons_bad rest hbad).2, (hfLoop_cons_bad rest hbad).1⟩

/-- Witness for C4: a well-formed first mention followed by one missing
`entity_group` makes the build fail, and the committed triples are exactly
those of the one-mention build. -/
theorem build_graph_hf_invalid_mention_witness :
    (build_graph_hf [⟨some "Barack Obama", some "PER", some "0.99"⟩,
        ⟨some "Hawaii", none, some "0.5"⟩]).2.isSome ∧
    (build_graph_hf [⟨some "Barack Obama", some "PER", some "0.99"⟩,
        ⟨some "Hawaii", none, some "0.5"⟩]).1 =
      (build_graph_hf [⟨some "Barack Obama", some "PER", some "0.99"⟩]).1 :=
  build_graph_hf_invalid_mention [⟨some "Barack Obama", some "PER", some "0.99"⟩]
    [] ⟨some "Hawaii", none, some "0.5"⟩ (by decide) (Or.inr rfl)

/-! ## Entity URI derivation -/

theorem sheNs_inj {a b : String} : sheNs a = sheNs b ↔ a = b := by
  constructor
  · intro h
    have h2 := congrArg String.data h
    simp only [sheNs, String.data_append] at h2
    exact String.ext (List.append_cancel_left h2)
  · intro h
    rw [h]

/-- C2 counterexample: the surface texts "a\tb" and "a b" have the same
whitespace-normalized form, yet they map to different entity URIs — the
source replaces only the space character U+0020, leaving the tab in place —
and the URI of "a\tb" differs from the one the spec's wording ("replacing
whitespace with underscores") prescribes for it. -/
theorem entUriOf_whitespace_cex :
    specNormalizeWs "a\tb" = specNormalizeWs "a b" ∧
    entUriOf "a\tb" ≠ entUriOf "a b" ∧
    entUriOf "a\tb" ≠ specEntUriOf "a\tb" := by
  decide

/-- C2 (amended): the entity URI is the ontology namespace followed by the
surface text with each *space character* (exactly U+0020, not arbitrary
whitespace) replaced by an underscore, and two mentions map to the same
entity node exactly when their texts agree after that space replacement. -/
theorem entUriOf_space_norm (t1 t2 : String) :
    (entUriOf t1 = entUriOf t2 ↔ normSpace t1 = normSpace t2) ∧
    entUriOf t1 = "http://example.org/she#" ++ normSpace t1 :=
  ⟨sheNs_inj, rfl⟩

/-- Witness for C2 (amended): "a b" and "a_b" agree after space replacement
and indeed share their entity URI. -/
theorem entUriOf_space_norm_witness :
    (entUriOf "a b" = entUriOf "a_b" ↔ normSpace "a b" = normSpace "a_b") ∧
    entUriOf "a b" = "http://example.org/she#" ++ normSpace "a b" :=
  entUriOf_space_norm "a b" "a_b"

/-! ## Color assignment -/

theorem colorLoop_eq_find (label : String) :
    ∀ L : List (String × String),
      colorLoop label L = ((L.find? fun kv => pyIn kv.1 label).map Prod.snd).getD "lightgray"
  | [] => rfl
  | (k, v) :: rest => by
    by_cases h : pyIn k label
    · simp [colorLoop, h, List.find?_cons_of_pos]
    · rw [List.find?_cons_of_neg _ (by simpa using h)]
      simpa [colorLoop, h] using colorLoop_eq_find label rest

/-- C5: `colorOf` evaluates the pairs Person→blue, Organization→orange,
Location→green, Date→yellow, MiscEntity→gray, Entity→gray, Document→red in
exactly that order and returns the color of the first pair whose key occurs
as a substring of the label; when no key occurs it returns "lightgray",
which differs from all seven listed colors; and on the label "MiscEntity"
the first matching pair is the MiscEntity entry, not the later generic
Entity entry. -/
theorem colorOf_spec :
    (∀ label : String,
      colorOf label = ((color_map.find? fun kv => pyIn kv.1 label).map Prod.snd).getD "lightgray") ∧
    (∀ label : String,
      (∀ kv ∈ color_map, pyIn kv.1 label = false) → colorOf label = "lightgray") ∧
    "lightgray" ∉ color_map.map Prod.snd ∧
    color_map = [("Person", "blue"), ("Organization", "orange"), ("Location", "green"),
      ("Date", "yellow"), ("MiscEntity", "gray"), ("Entity", "gray"), ("Document", "red")] ∧
    (color_map.find? fun kv => pyIn kv.1 "MiscEntity") = some ("MiscEntity", "gray") ∧
    colorOf "MiscEntity" = "gray" := by
  refine ⟨fun label => colorLoop_eq_find label color_map, ?_, by decide, rfl, by decide, by decide⟩
  intro label h
  rw [colorOf, colorLoop_eq_find label color_map, List.find?_eq_none.mpr]
  · rfl
  · intro kv hkv
    simp [h kv hkv]

/-- Witness for C5: no key of the color map occurs in the label "xyz", so
its color is the default "lightgray". -/
theorem colorOf_spec_witness : colorOf "xyz" = "lightgray" :=
  colorOf_spec.2.1 "xyz" (by decide)

/-! ## Display labels in `show_graph` -/

theorem takeWhile_of_all {α : Type} (p : α → Bool) :
    ∀ l : List α, (∀ c ∈ l, p c = true) → l.takeWhile p = l
  | [], _ => rfl
  | a :: as, h => by
    rw [List.takeWhile_cons, if_pos (h a (List.mem_cons_self a as)),
      takeWhile_of_all p as fun c hc => h c (List.mem_cons_of_mem a hc)]

theorem takeWhile_append_stop {α : Type} (p : α → Bool) (x : α) (l2 : List α) :
    ∀ l1 : List α, (∀ c ∈ l1, p c = true) → p x = false →
      (l1 ++ x :: l2).takeWhile p = l1
  | [], _, hx => by
    simp [List.takeWhile_cons, hx]
  | a :: as, h, hx => by
    rw [List.cons_append, List.takeWhile_cons, if_pos (h a (List.mem_cons_self a as)),
      takeWhile_append_stop p x l2 as (fun c hc => h c (List.mem_cons_of_mem a hc)) hx]

theorem afterLastHash_append (a b : String) (hb : ∀ c ∈ b.data, c ≠ '#') :
    afterLastHash (a ++ "#" ++ b) = b := by
  unfold afterLastHash
  have hdata : (a ++ "#" ++ b).data = a.data ++ '#' :: b.data := by
    simp [String.data_append]
  rw [hdata, List.reverse_append, List.reverse_cons, List.append_assoc,
    List.singleton_append,
    takeWhile_append_stop _ '#' a.data.reverse b.data.reverse
      (fun c hc => by simpa using hb c (List.mem_reverse.mp hc)) (by simp),
    List.reverse_reverse]

/-- C10: the display label of a presentation node is the part of the node's
string identity after the last `'#'` (the whole string when it contains no
`'#'`) — so a node whose string value contains `'#'` (for example a literal
text value with a `'#'`) is truncated — and both the label and the color of
the emitted pyvis node are computed from that truncated label, not from the
full string. -/
theorem showNode_spec (a b : String) (hb : ∀ c ∈ b.data, c ≠ '#') :
    (∀ s : String, (∀ c ∈ s.data, c ≠ '#') → afterLastHash s = s) ∧
    afterLastHash (a ++ "#" ++ b) = b ∧
    showNode (a ++ "#" ++ b) = (a ++ "#" ++ b, b, colorOf b) := by
  have h := afterLastHash_append a b hb
  refine ⟨fun s hs => ?_, h, by rw [showNode, h]⟩
  unfold afterLastHash
  rw [takeWhile_of_all _ s.data.reverse
      fun c hc => by simpa using hs c (List.mem_reverse.mp hc),
    List.reverse_reverse]

/-- Witness for C10: the value "see Person#X" (last fragment "X") gets
display label "X" and color "lightgray", even though the full value
contains the color key "Person", whose color blue would be chosen if the
color were computed from the full value; a hash-free value is its own
label. -/
theorem showNode_spec_witness :
    afterLastHash "Hawaii" = "Hawaii" ∧
    afterLastHash ("see Person" ++ "#" ++ "X") = "X" ∧
    showNode ("see Person" ++ "#" ++ "X") = ("see Person" ++ "#" ++ "X", "X", colorOf "X") ∧
    colorOf "X" = "lightgray" ∧
    colorOf ("see Person" ++ "#" ++ "X") = "blue" :=
  ⟨(showNode_spec "see Person" "X" (by decide)).1 "Hawaii" (by decide),
   (showNode_spec "see Person" "X" (by decide)).2.1,
   (showNode_spec "see Person" "X" (by decide)).2.2,
   by decide, by decide⟩

/-! ## Projection to a NetworkX DiGraph -/

theorem edges_addNode (G : NXDiGraph) (n : String) : (addNode G n).edges = G.edges := by
  unfold addNode
  split <;> rfl

theorem mem_nodes_addNode {G : NXDiGraph} {n x : String} :
    x ∈ (addNode G n).nodes ↔ x ∈ G.nodes ∨ x = n := by
  unfold addNode
  split
  · rename_i h
    exact ⟨Or.inl, fun hx => hx.elim id fun he => he ▸ h⟩
  · simp [List.mem_append]

theorem nodup_nodes_addNode {G : NXDiGraph} {n : String} (h : G.nodes.Nodup) :
    (addNode G n).nodes.Nodup := by
  unfold addNode
  split
  · exact h
  · rename_i hn
    simp [List.nodup_append, h, hn]

theorem nodes_addEdge (G : NXDiGraph) (s t lbl : String) :
    (addEdge G s t lbl).nodes = (addNode (addNode G s) t).nodes := by
  simp only [addEdge]
  split <;> rfl

theorem keys_upsert (edges : List (String × String × String)) (s t lbl : String) :
    (edges.map fun e => if edgeKey e = (s, t) then (s, t, lbl) else e).map edgeKey
      = edges.map edgeKey := by
  rw [List.map_map]
  refine List.map_congr_left fun e he => ?_
  by_cases h : edgeKey e = (s, t)
  · simp only [Function.comp_apply, if_pos h]
    exact h.symm
  · simp only [Function.comp_apply, if_neg h]

theorem keys_addEdge (G : NXDiGraph) (s t lbl : String) :
    (addEdge G s t lbl).edges.map edgeKey =
      if (s, t) ∈ G.edges.map edgeKey then G.edges.map edgeKey
      else G.edges.map edgeKey ++ [(s, t)] := by
  simp only [addEdge, edges_addNode]
  split
  · exact keys_upsert G.edges s t lbl
  · show List.map edgeKey (G.edges ++ [(s, t, lbl)]) = _
    rw [List.map_append]
    rfl

theorem nodup_keys_addEdge {G : NXDiGraph} {s t lbl : String}
    (h : (G.edges.map edgeKey).Nodup) :
    ((addEdge G s t lbl).edges.map edgeKey).Nodup := by
  rw [keys_addEdge]
  split
  · exact h
  · rename_i hn
    simp [List.nodup_append, h, hn]

theorem mem_keys_addEdge {G : NXDiGraph} {s t lbl : String} {x : String × String} :
    x ∈ (addEdge G s t lbl).edges.map edgeKey ↔ x ∈ G.edges.map edgeKey ∨ x = (s, t) := by
  rw [keys_addEdge]
  split
  · rename_i h
    exact ⟨Or.inl, fun hx => hx.elim id fun he => he ▸ h⟩
  · simp [List.mem_append]

theorem mem_nodes_projStep {G : NXDiGraph} {t : Triple} {x : String} :
    x ∈ (projStep G t).nodes ↔ x ∈ G.nodes ∨ x = t.subj ∨ x = t.obj.toStr := by
  simp only [projStep, nodes_addEdge, mem_nodes_addNode]
  tauto

theorem nodup_nodes_projStep {G : NXDiGraph} {t : Triple} (h : G.nodes.Nodup) :
    (projStep G t).nodes.Nodup := by
  simp only [projStep, nodes_addEdge]
  exact nodup_nodes_addNode (nodup_nodes_addNode (nodup_nodes_addNode (nodup_nodes_addNode h)))

theorem mem_keys_projStep {G : NXDiGraph} {t : Triple} {x : String × String} :
    x ∈ (projStep G t).edges.map edgeKey ↔
      x ∈ G.edges.map edgeKey ∨ x = (t.subj, t.obj.toStr) := by
  simp only [projStep]
  rw [mem_keys_addEdge, edges_addNode, edges_addNode]

theorem nodup_keys_projStep {G : NXDiGraph} {t : Triple}
    (h : (G.edges.map edgeKey).Nodup) : ((projStep G t).edges.map edgeKey).Nodup := by
  simp only [projStep]
  exact nodup_keys_addEdge (by rw [edges_addNode, edges_addNode]; exact h)

theorem mem_nodes_foldl :
    ∀ (g : TripleSet) (G : NXDiGraph) (x : String),
      x ∈ (g.foldl projStep G).nodes ↔
        x ∈ G.nodes ∨ x ∈ g.map Triple.subj ∨ x ∈ g.map fun t => t.obj.toStr := by
  intro g
  induction g with
  | nil => intro G x; simp
  | cons t ts ih =>
    intro G x
    rw [List.foldl_cons, ih, mem_nodes_projStep]
    simp only [List.map_cons, List.mem_cons]
    tauto

theorem mem_keys_foldl :
    ∀ (g : TripleSet) (G : NXDiGraph) (x : String × String),
      x ∈ (g.foldl projStep G).edges.map edgeKey ↔
        x ∈ G.edges.map edgeKey ∨ x ∈ g.map fun t => (t.subj, t.obj.toStr) := by
  intro g
  induction g with
  | nil => intro G x; simp
  | cons t ts ih =>
    intro G x
    rw [List.foldl_cons, ih, mem_keys_projStep]
    simp only [List.map_cons, List.mem_cons]
    tauto

theorem nodup_nodes_foldl :
    ∀ (g : TripleSet) (G : NXDiGraph), G.nodes.Nodup → (g.foldl projStep G).nodes.Nodup := by
  intro g
  induction g with
  | nil => intro G h; exact h
  | cons t ts ih =>
    intro G h
    rw [List.foldl_cons]
    exact ih _ (nodup_nodes_projStep h)

theorem nodup_keys_foldl :
    ∀ (g : TripleSet) (G : NXDiGraph),
      (G.edges.map edgeKey).Nodup → ((g.foldl projStep G).edges.map edgeKey).Nodup := by
  intro g
  induction g with
  | nil => intro G h; exact h
  | cons t ts ih =>
    intro G h
    rw [List.foldl_cons]
    exact ih _ (nodup_keys_projStep h)

theorem length_eq_dedup_of_nodup {α : Type} [DecidableEq α] {l m : List α}
    (hn : l.Nodup) (h : ∀ x, x ∈ l ↔ x ∈ m) : l.length = m.dedup.length :=
  ((List.perm_ext_iff_of_nodup hn (List.nodup_dedup m)).mpr
    fun x => by rw [h x, List.mem_dedup]).length_eq

/-- C1 counterexample: the triples ("s", "p1", "o") and ("s", "p2", "o") are
distinct (two distinct input triples), yet the projected `DiGraph` has a
single edge: a `DiGraph` keeps at most one edge per ordered (source, target)
pair, so the second triple merely overwrites the first edge's label. -/
theorem rdf_to_networkx_edges_cex :
    Triple.mk "s" "p1" (.uri "o") ≠ Triple.mk "s" "p2" (.uri "o") ∧
    ([Triple.mk "s" "p1" (.uri "o"), Triple.mk "s" "p2" (.uri "o")] : TripleSet).dedup.length = 2 ∧
    (rdf_to_networkx [Triple.mk "s" "p1" (.uri "o"),
        Triple.mk "s" "p2" (.uri "o")]).edges.length = 1 := by
  decide

/-- C1 (amended): for every triple set, the projected graph's node count
equals the number of distinct string identities occurring as a subject or
object, and its edge count equals the number of distinct (subject string,
object string) pairs — not the number of distinct triples, since triples
differing only in their predicate collapse into one edge; identical triples
add no duplicate nodes or edges, and a triple whose subject and object
coincide yields a self-loop edge without failure, as every triple's
(subject, object) pair is present among the edge keys. -/
theorem rdf_to_networkx_spec (g : TripleSet) :
    (rdf_to_networkx g).nodes.length
        = ((g.map Triple.subj ++ g.map fun t => t.obj.toStr).dedup).length ∧
    (rdf_to_networkx g).edges.length
        = ((g.map fun t => (t.subj, t.obj.toStr)).dedup).length ∧
    ∀ t ∈ g, t.subj ∈ (rdf_to_networkx g).nodes ∧ t.obj.toStr ∈ (rdf_to_networkx g).nodes ∧
      (t.subj, t.obj.toStr) ∈ (rdf_to_networkx g).edges.map edgeKey := by
  simp only [rdf_to_networkx]
  refine ⟨?_, ?_, ?_⟩
  · exact length_eq_dedup_of_nodup (nodup_nodes_foldl g ⟨[], []⟩ List.nodup_nil)
      fun x => by rw [mem_nodes_foldl, List.mem_append]; simp
  · rw [← List.length_map (g.foldl projStep ⟨[], []⟩).edges edgeKey]
    exact length_eq_dedup_of_nodup (nodup_keys_foldl g ⟨[], []⟩ List.nodup_nil)
      fun x => by rw [mem_keys_foldl]; simp
  · intro t ht
    exact ⟨(mem_nodes_foldl g ⟨[], []⟩ t.subj).mpr
        (Or.inr (Or.inl (List.mem_map_of_mem Triple.subj ht))),
      (mem_nodes_foldl g ⟨[], []⟩ t.obj.toStr).mpr
        (Or.inr (Or.inr (List.mem_map_of_mem _ ht))),
      (mem_keys_foldl g ⟨[], []⟩ _).mpr (Or.inr (List.mem_map_of_mem _ ht))⟩

/-- Witness for C1: a single self-loop triple projects to one node, one
edge, and the self-loop key ("s", "s") among the edge keys. -/
theorem rdf_to_networkx_spec_witness :
    (rdf_to_networkx [Triple.mk "s" "p" (.uri "s")]).nodes.length
        = ((([Triple.mk "s" "p" (.uri "s")] : TripleSet).map Triple.subj
            ++ ([Triple.mk "s" "p" (.uri "s")] : TripleSet).map fun t => t.obj.toStr).dedup).length ∧
    (rdf_to_networkx [Triple.mk "s" "p" (.uri "s")]).edges.length
        = ((([Triple.mk "s" "p" (.uri "s")] : TripleSet).map fun t => (t.subj, t.obj.toStr)).dedup).length ∧
    ("s", "s") ∈ (rdf_to_networkx [Triple.mk "s" "p" (.uri "s")]).edges.map edgeKey :=
  ⟨(rdf_to_networkx_spec [Triple.mk "s" "p" (.uri "s")]).1,
   (rdf_to_networkx_spec [Triple.mk "s" "p" (.uri "s")]).2.1,
   ((rdf_to_networkx_spec [Triple.mk "s" "p" (.uri "s")]).2.2
      (Triple.mk "s" "p" (.uri "s")) (by decide)).2.2⟩

end Ner
